import Mathlib

/-!
Verification of the `exchange` client library (exchange.go).

The Go source is shallowly embedded below.  Go strings are modelled as Lean
`String`s viewed as sequences of unicode code points; `len` on a Go string is
the UTF-8 byte length, modelled by `goLen`.  All definitions are translated
from the source file `exchange.go`; the only definitions that follow the
specification's words instead are clearly marked (`encodeSpec`, `encodePairs`,
used by the refinement statement about the field order of the request encoder).
Machine integers (`int` amounts) are modelled as `Int`; no arithmetic in the
source can overflow for the values the claims touch.
-/

/-- Byte length of one character when encoded in UTF-8, as Go counts it. -/
def utf8Len (c : Char) : Nat :=
  if c.toNat < 0x80 then 1 else if c.toNat < 0x800 then 2
  else if c.toNat < 0x10000 then 3 else 4

/-- Go's `len` on a string: the number of UTF-8 bytes. -/
def goLen (s : String) : Nat := (s.data.map utf8Len).sum

/-- Bytewise (code-point-wise) string order on character lists.  For ASCII
data this coincides with Go's bytewise string comparison used by
`sort.Strings`. -/
def charsLe : List Char → List Char → Bool
  | [], _ => true
  | _ :: _, [] => false
  | a :: as, b :: bs =>
    if a.toNat < b.toNat then true
    else if b.toNat < a.toNat then false
    else charsLe as bs

/-- Go's string `<=` (bytewise), used by `sort.Strings` inside
`url.Values.Encode`. -/
def goStrLe (a b : String) : Bool := charsLe a.data b.data

/-- ASCII decimal digit test, as Go's `isDigit` in the time package. -/
def isDigitCh (c : Char) : Bool := '0' ≤ c && c ≤ '9'

/-- Numeric value of an ASCII digit. -/
def digitVal (c : Char) : Nat := c.toNat - 48

/-- Uppercase hexadecimal digit for a value below 16 (Go's `upperhex`). -/
def hexDigit (n : Nat) : Char :=
  if n < 10 then Char.ofNat (48 + n) else Char.ofNat (55 + n)

/-- UTF-8 bytes of a unicode code point. -/
def utf8Bytes (n : Nat) : List Nat :=
  if n < 0x80 then [n]
  else if n < 0x800 then [0xC0 + n / 64, 0x80 + n % 64]
  else if n < 0x10000 then [0xE0 + n / 4096, 0x80 + (n / 64) % 64, 0x80 + n % 64]
  else [0xF0 + n / 262144, 0x80 + (n / 4096) % 64, 0x80 + (n / 64) % 64, 0x80 + n % 64]

/-- Percent-escape of one byte: `%XX` with uppercase hex, as Go writes it. -/
def pctByte (b : Nat) : List Char := ['%', hexDigit (b / 16), hexDigit (b % 16)]

/-- Characters Go's `url.QueryEscape` leaves unescaped: ASCII alphanumerics
and `-`, `_`, `.`, `~`. -/
def queryUnreserved (c : Char) : Bool :=
  ('a' ≤ c && c ≤ 'z') || ('A' ≤ c && c ≤ 'Z') || ('0' ≤ c && c ≤ '9') ||
  c == '-' || c == '_' || c == '.' || c == '~'

/-- Escape of one character under Go's `url.QueryEscape`: unreserved
characters pass through, space becomes `+`, everything else is
percent-escaped byte by byte. -/
def queryEscapeChar (c : Char) : List Char :=
  if queryUnreserved c then [c]
  else if c == ' ' then ['+']
  else ((utf8Bytes c.toNat).map pctByte).flatten

/-- Go's `url.QueryEscape`. -/
def queryEscape (s : String) : String := String.mk ((s.data.map queryEscapeChar).flatten)

/-- Quoting of one character under Go's `%q` verb (`strconv.Quote`): quote
and backslash are backslash-escaped, the usual control escapes are used,
other control bytes become `\xHH`, printable characters pass through.
Non-printable characters above U+00FF are not distinguished further; no claim
evaluates them. -/
def goQuoteChar (c : Char) : List Char :=
  if c == '"' then ['\\', '"']
  else if c == '\\' then ['\\', '\\']
  else if c == '\n' then ['\\', 'n']
  else if c == '\t' then ['\\', 't']
  else if c == '\r' then ['\\', 'r']
  else if c.toNat == 7 then ['\\', 'a']
  else if c.toNat == 8 then ['\\', 'b']
  else if c.toNat == 12 then ['\\', 'f']
  else if c.toNat == 11 then ['\\', 'v']
  else if c.toNat < 32 || c.toNat == 127 then pctByte c.toNat -- modelled as bytes; claims never evaluate these
  else [c]

/-- Go's `%q` rendering of a string (`strconv.Quote`). -/
def goQuote (s : String) : String :=
  String.mk ('"' :: (s.data.map goQuoteChar).flatten ++ ['"'])

/-- Prefix test on character lists. -/
def charsPre : List Char → List Char → Bool
  | [], _ => true
  | _ :: _, [] => false
  | a :: as, b :: bs => a == b && charsPre as bs

/-- Substring occurrence test on character lists. -/
def charsSub (pat : List Char) : List Char → Bool
  | [] => charsPre pat []
  | c :: rest => charsPre pat (c :: rest) || charsSub pat rest

/-- Substring occurrence test on strings (`strings.Contains`). -/
def hasSubstr (s pat : String) : Bool := charsSub pat.data s.data

/-- Go's `strings.Join` with a separator. -/
def joinWith (sep : String) : List String → String
  | [] => ""
  | [x] => x
  | x :: rest => x ++ sep ++ joinWith sep rest

/-! ## Errors

The sentinel error variables of `exchange.go` and the wrappings produced by
`fmt.Errorf` with `%w`. -/

/-- Go error values reachable in `exchange.go`: the six sentinel errors, the
opaque errors of external collaborators (`time.Parse`, the HTTP transport,
`encoding/json`), and the two wrapping shapes produced by `fmt.Errorf`. -/
inductive GoErr where
  | invalidCode
  | invalidDate
  | invalidDateFormat
  | invalidTimeFrame
  | timeframeExceeded
  | invalidAPIResponse
  | external (msg : String)
  | wrapPre (ctx : String) (e : GoErr)
  | wrap2 (e1 : GoErr) (mid : String) (e2 : GoErr)
deriving DecidableEq

/-- Result of `Error()` on a modelled error value. -/
def errMsg : GoErr → String
  | .invalidCode => "Invalid currency code"
  | .invalidDate => "Oldest possible date is 1999-01-04"
  | .invalidDateFormat => "Date format must be YYYY-MM-DD"
  | .invalidTimeFrame => "From date must be older than To date"
  | .timeframeExceeded => "Maximum allowed timeframe is 365 days"
  | .invalidAPIResponse => "Unknown API error"
  | .external m => m
  | .wrapPre c e => c ++ errMsg e
  | .wrap2 e1 m e2 => errMsg e1 ++ m ++ errMsg e2

/-- Go's `errors.Is` for the sentinel errors: the target is the error itself
or appears somewhere along the `%w` unwrap chain. -/
def errIs : GoErr → GoErr → Bool
  | e, t =>
    e == t ||
    match e with
    | .wrapPre _ e' => errIs e' t
    | .wrap2 a _ b => errIs a t || errIs b t
    | _ => false

/-- Convenience: a fallible result failed with (a wrapping of) the given
sentinel error. -/
def exceptErrIs {α : Type} (r : Except GoErr α) (t : GoErr) : Bool :=
  match r with
  | .error e => errIs e t
  | .ok _ => false

/-! ## Dates: Go's `time.Parse` with layout `"2006-01-02"` -/

/-- Calendar date as parsed by `parseDate` (midnight UTC in the source). -/
structure GoDate where
  y : Nat
  m : Nat
  d : Nat
deriving DecidableEq

/-- Gregorian leap-year rule, as Go's `isLeap`. -/
def isLeap (y : Nat) : Bool := y % 4 == 0 && (y % 100 != 0 || y % 400 == 0)

/-- Number of days in a month, as Go's `daysIn`. -/
def daysInMonth (y m : Nat) : Nat :=
  if m == 2 then (if isLeap y then 29 else 28)
  else if m == 4 || m == 6 || m == 9 || m == 11 then 30
  else 31

/-- Cumulative days before the given month in a non-leap year. -/
def daysBeforeMonth (m : Nat) : Nat :=
  [0, 0, 31, 59, 90, 120, 151, 181, 212, 243, 273, 304, 334].getD m 0

/-- Absolute day number of a date (days since 0000-01-01, proleptic
Gregorian).  Two parsed dates compare under Go's `Time.Before`, and subtract
under `Time.Sub`, exactly as their day numbers do, since `parseDate` always
yields midnight UTC instants. -/
def dayNum (d : GoDate) : Nat :=
  365 * d.y + (d.y + 3) / 4 - (d.y + 99) / 100 + (d.y + 399) / 400 +
    daysBeforeMonth d.m + (if 2 < d.m && isLeap d.y then 1 else 0) + (d.d - 1)

/-- Message of the error produced by `time.Parse` itself.  Its exact text is
produced inside the Go standard library and is not modelled in detail; no
claim inspects it. -/
def timeParseErrMsg (s : String) : String :=
  "parsing time " ++ goQuote s ++ " as \"2006-01-02\""

/-- Error value returned by `parseDate` on a malformed date string:
`fmt.Errorf("%w: parse %q as 2006-01-02: %w", ErrInvalidDateFormat, s, err)`. -/
def parseDateErr (s : String) : GoErr :=
  .wrap2 .invalidDateFormat (": parse " ++ goQuote s ++ " as 2006-01-02: ")
    (.external (timeParseErrMsg s))

/-- Model of `parseDate`: Go's `time.Parse` with the fixed layout
`"2006-01-02"`.  The layout forces exactly four digits, a dash, two digits, a
dash and two digits, with no trailing text; `time.Parse` then range-checks the
month (1..12) and the day (1..days in that month).  Every failure mode is
wrapped into `ErrInvalidDateFormat` by `parseDate`. -/
def parseDate (s : String) : Except GoErr GoDate :=
  match s.data with
  | [y1, y2, y3, y4, c1, m1, m2, c2, d1, d2] =>
    if isDigitCh y1 && isDigitCh y2 && isDigitCh y3 && isDigitCh y4 &&
       c1 == '-' && isDigitCh m1 && isDigitCh m2 && c2 == '-' &&
       isDigitCh d1 && isDigitCh d2 then
      let y := 1000 * digitVal y1 + 100 * digitVal y2 + 10 * digitVal y3 + digitVal y4
      let m := 10 * digitVal m1 + digitVal m2
      let d := 10 * digitVal d1 + digitVal d2
      if 1 ≤ m && m ≤ 12 then
        if 1 ≤ d && d ≤ daysInMonth y m then .ok ⟨y, m, d⟩
        else .error (parseDateErr s)
      else .error (parseDateErr s)
    else .error (parseDateErr s)
  | _ => .error (parseDateErr s)

/-! ## Validators -/

/-- Model of `ValidateCode`: fails with `ErrInvalidCode` unless the byte
length is exactly 3. -/
def ValidateCode (code : String) : Except GoErr Unit :=
  if goLen code ≠ 3 then .error .invalidCode else .ok ()

/-- Model of `ValidateSymbols`: first failing element wins. -/
def ValidateSymbols : List String → Except GoErr Unit
  | [] => .ok ()
  | c :: rest =>
    match ValidateCode c with
    | .error e => .error e
    | .ok _ => ValidateSymbols rest

/-- Model of `ValidateDate`.  The floor is `parseDate "1999-01-03"` (which
cannot fail; the panic branch of the source is mirrored by returning the
impossible error) and the comparison is Go's strict `Before`. -/
def ValidateDate (date : String) : Except GoErr Unit :=
  match parseDate "1999-01-03" with
  | .error e => .error e -- unreachable: the source panics here ("programmer error")
  | .ok oldestDate =>
    match parseDate date with
    | .error e => .error e
    | .ok selectedDate =>
      if dayNum selectedDate < dayNum oldestDate then .error .invalidDate
      else .ok ()

/-- Model of `ValidateTimeFrame`.  Both endpoints are midnight instants, so
`to.Sub(from).Hours()` is the exact float `24 * (dayNum to - dayNum from)`
whenever the difference fits in a `time.Duration` (whole hours are below
2^53, so the float is exact), and the comparison with the literal
`8759.992992006` is equivalent to the integer comparison
`24 * days * 10^9 > 8759992992006`.  For differences beyond the `Duration`
saturation point (about 292 years) Go saturates and still reports the
timeframe exceeded, which agrees with the integer comparison. -/
def ValidateTimeFrame (TimeFrame : String × String) : Except GoErr Unit :=
  match parseDate TimeFrame.1 with
  | .error e => .error e
  | .ok dfrom =>
    match parseDate TimeFrame.2 with
    | .error e => .error e
    | .ok dto =>
      if dayNum dto < dayNum dfrom then .error .invalidTimeFrame
      else if 8759992992006 < 24 * 1000000000 * (dayNum dto - dayNum dfrom) then
        .error .timeframeExceeded
      else .ok ()

/-! ## Client state and the query model -/

/-- Model of the `Exchange` struct. -/
structure Exchange where
  Base : String
  CacheEnabled : Bool
  isInitialized : Bool
deriving DecidableEq

/-- Model of `New`. -/
def New (base : String) : Exchange :=
  { Base := base, CacheEnabled := true, isInitialized := true }

/-- Model of `SetBase`: the struct after the call together with the returned
error (`none` on success). -/
def SetBase (exchange : Exchange) (base : String) : Option GoErr × Exchange :=
  match ValidateCode base with
  | .error e => (some e, exchange)
  | .ok _ => (none, { exchange with Base := base })

/-- Model of `SetCache`. -/
def SetCache (exchange : Exchange) (enabled : Bool) : Exchange :=
  { exchange with CacheEnabled := enabled }

/-- Model of the `query` struct.  Defaults are the Go zero values. -/
structure query where
  From : String := ""
  To : String := ""
  Base : String := ""
  Amount : Int := 0
  Symbols : List String := []
  Date : String := ""
  TimeFrame : String × String := ("", "")
deriving DecidableEq

/-! ## URL values: `url.Values`, `ParseQuery` and `Encode`

`url.Values` is a map from keys to slices of values; `Encode` emits the keys
in sorted order and, per key, the values in insertion order.  The model keeps
the flat list of (key, value) pairs in insertion order and lets `valuesEncode`
sort it stably by key, which produces exactly the same output string. -/

/-- Hexadecimal digit value, as Go's `unhex`. -/
def unhexCh (c : Char) : Option Nat :=
  if '0' ≤ c && c ≤ '9' then some (c.toNat - 48)
  else if 'A' ≤ c && c ≤ 'F' then some (c.toNat - 55)
  else if 'a' ≤ c && c ≤ 'f' then some (c.toNat - 87)
  else none

/-- Go's `url.QueryUnescape` on a character list: `+` becomes space, `%XX`
decodes a byte (modelled as a code point; coincides with Go for ASCII), a
malformed `%` sequence is an error (`none`). -/
def unescapeChars : List Char → Option (List Char)
  | [] => some []
  | '%' :: a :: b :: rest =>
    match unhexCh a, unhexCh b, unescapeChars rest with
    | some ha, some hb, some r => some (Char.ofNat (16 * ha + hb) :: r)
    | _, _, _ => none
  | '%' :: _ => none
  | '+' :: rest => (unescapeChars rest).map (' ' :: ·)
  | c :: rest => (unescapeChars rest).map (c :: ·)

/-- Split a character list at every occurrence of a separator character
(Go's repeated `strings.Cut`). -/
def splitOnChar (sep : Char) : List Char → List (List Char)
  | [] => [[]]
  | c :: rest =>
    if c == sep then [] :: splitOnChar sep rest
    else
      match splitOnChar sep rest with
      | [] => [[c]]
      | h :: t => (c :: h) :: t

/-- Split a character list at the first occurrence of a separator
(Go's `strings.Cut`); the separator is dropped, and the second component is
empty when the separator does not occur. -/
def cutAtChar (sep : Char) : List Char → List Char × List Char
  | [] => ([], [])
  | c :: rest =>
    if c == sep then ([], rest)
    else
      let (a, b) := cutAtChar sep rest
      (c :: a, b)

/-- One segment of a raw query under Go's `url.ParseQuery`: segments that are
empty, contain a semicolon, or fail unescaping are dropped (the error is
discarded by `URL.Query()`); otherwise the segment is cut at the first `=`
and both halves are unescaped. -/
def parseQuerySeg (seg : List Char) : Option (String × String) :=
  if seg.isEmpty then none
  else if seg.contains ';' then none
  else
    let (k, v) := cutAtChar '=' seg
    match unescapeChars k, unescapeChars v with
    | some k', some v' => some (String.mk k', String.mk v')
    | _, _ => none

/-- Model of `req.URL.Query()`: Go's `url.ParseQuery` with the error
discarded. -/
def parseQuery (s : String) : List (String × String) :=
  (splitOnChar '&' s.data).filterMap parseQuerySeg

/-- Stable insertion of a pair into a list sorted by key. -/
def insPair (p : String × String) : List (String × String) → List (String × String)
  | [] => [p]
  | q :: rest => if goStrLe q.1 p.1 then q :: insPair p rest else p :: q :: rest

/-- Stable sort of the pairs by key.  `url.Values.Encode` sorts the distinct
map keys with `sort.Strings` and emits each key's values in insertion order;
on the flat insertion-order pair list that is exactly a stable sort by key. -/
def sortPairs : List (String × String) → List (String × String)
  | [] => []
  | p :: rest => insPair p (sortPairs rest)

/-- Model of `url.Values.Encode`: keys sorted, every key and value
query-escaped, pairs joined with `=` and `&`. -/
def valuesEncode (Q : List (String × String)) : String :=
  joinWith "&" ((sortPairs Q).map (fun p => queryEscape p.1 ++ "=" ++ queryEscape p.2))

/-- Model of the request: the part of `http.Request` the source touches, its
URL split into the pre-query part and `URL.RawQuery`. -/
structure Request where
  base : String
  rawQuery : String
deriving DecidableEq

/-- Model of `http.NewRequest("GET", url, nil)`: the URL is cut at the first
`?`.  (The URLs the library builds always parse, so the error path of
`NewRequest` is not reachable and not modelled.) -/
def newRequest (url : String) : Request :=
  let (b, q) := cutAtChar '?' url.data
  { base := String.mk b, rawQuery := String.mk q }

/-- Model of `req.URL.String()`: the `?` reappears only when the raw query is
non-empty. -/
def requestURLString (req : Request) : String :=
  req.base ++ (if req.rawQuery = "" then "" else "?" ++ req.rawQuery)

/-! ## The request encoder: `processQuery` -/

/-- Pair-building part of `processQuery`: starting from the parsed incoming
values `Q0`, add `access_key` unconditionally, then walk the fields of the
query in source order — base, from, to (each validated with `ValidateCode`
when non-empty), amount (added without validation when greater than 1),
symbols (joined with commas, never validated), date (validated with
`ValidateDate` when non-empty), time frame (when non-zero: `ValidateDate` on
the first endpoint only — the source's loop `for i := 0; i < 1; i++` touches
index 0 only — then `ValidateTimeFrame`, then `start_date` and `end_date`).
The first validation error aborts the walk. -/
def processQueryValues (accessKey : String) (Q0 : List (String × String)) (q : query) :
    Except GoErr (List (String × String)) :=
  let Q1 := Q0 ++ [("access_key", accessKey)]
  match (if q.Base != "" then ValidateCode q.Base else .ok ()) with
  | .error e => .error e
  | .ok _ =>
  let Q2 := Q1 ++ (if q.Base != "" then [("base", q.Base)] else [])
  match (if q.From != "" then ValidateCode q.From else .ok ()) with
  | .error e => .error e
  | .ok _ =>
  let Q3 := Q2 ++ (if q.From != "" then [("from", q.From)] else [])
  match (if q.To != "" then ValidateCode q.To else .ok ()) with
  | .error e => .error e
  | .ok _ =>
  let Q4 := Q3 ++ (if q.To != "" then [("to", q.To)] else [])
  let Q5 := Q4 ++ (if 1 < q.Amount then [("amount", toString q.Amount)] else [])
  let Q6 := Q5 ++ (if q.Symbols != [] then [("symbols", joinWith "," q.Symbols)] else [])
  match (if q.Date != "" then ValidateDate q.Date else .ok ()) with
  | .error e => .error e
  | .ok _ =>
  let Q7 := Q6 ++ (if q.Date != "" then [("date", q.Date)] else [])
  match (if q.TimeFrame != ("", "") then ValidateDate q.TimeFrame.1 else .ok ()) with
  | .error e => .error e
  | .ok _ =>
  match (if q.TimeFrame != ("", "") then ValidateTimeFrame q.TimeFrame else .ok ()) with
  | .error e => .error e
  | .ok _ =>
  let Q8 := Q7 ++ (if q.TimeFrame != ("", "") then
    [("start_date", q.TimeFrame.1), ("end_date", q.TimeFrame.2)] else [])
  .ok Q8

/-- Model of `processQuery`: on a validation error the request is returned
untouched (the local `Q` never reaches `req.URL.RawQuery`); on success the
encoded values are assigned to `RawQuery`. -/
def processQuery (accessKey : String) (req : Request) (q : query) :
    Except GoErr Unit × Request :=
  match processQueryValues accessKey (parseQuery req.rawQuery) q with
  | .error e => (.error e, req)
  | .ok Q => (.ok (), { req with rawQuery := valuesEncode Q })

/-! ## The fetch pipeline: `get` -/

/-- Decoded JSON values (`interface{}` after `json.Unmarshal`).  Numbers are
kept as their decimal text: the pipeline core never interprets them. -/
inductive GoVal where
  | null
  | bool (b : Bool)
  | num (text : String)
  | str (s : String)
  | obj (fields : List (GoVal × GoVal))
  | arr (elems : List GoVal)
deriving BEq

/-- Top-level decoded payload: `map[string]interface{}`. -/
def GoMap : Type := List (String × GoVal)

/-- Cache contents: decoded payloads keyed by request URL. -/
def Cache : Type := List (String × GoMap)

/-- Model of `gocache.Cache.SetDefault`: replace the value under the key or
append it. -/
def cacheSet (c : Cache) (k : String) (v : GoMap) : Cache :=
  match c with
  | [] => [(k, v)]
  | (k', v') :: rest => if k' = k then (k, v) :: rest else (k', v') :: cacheSet rest k v

/-- External collaborators of the fetch pipeline: the shared access key, the
HTTP transport (`Client.Client.Do` followed by `io.ReadAll`, as a map from
the request URL to a body or a transport error), and `encoding/json`'s
`Unmarshal` into `map[string]interface{}` (a body either decodes to a
string-keyed map or yields a decode error message). -/
structure ClientEnv where
  accessKey : String
  transport : String → Except String String
  unmarshal : String → Except String GoMap

/-- Outcome of one `get` call.  `panics` marks the unchecked type assertion
`result["success"].(bool)` failing (missing or non-boolean field). -/
inductive GetOutcome where
  | ok (payload : GoMap)
  | err (e : GoErr)
  | panics

/-- Cache key used by `get`: the request URL after `processQuery` ran — with
its error discarded, exactly as in the source (`processQuery(req, q)` on its
own line). -/
def getCacheKey (accessKey : String) (url : String) (q : query) : String :=
  requestURLString (processQuery accessKey (newRequest url) q).2

/-- Model of `get`: build the request, run `processQuery` (discarding its
error, as the source does), probe the cache when enabled, otherwise do the
HTTP round trip, decode, check the `success` field, store in the cache when
enabled.  The third component records whether the HTTP transport was
reached. -/
def Exchange.get (env : ClientEnv) (exchange : Exchange) (cache : Cache) (url : String) (q : query) :
    GetOutcome × Cache × Bool :=
  let cacheKey := getCacheKey env.accessKey url q
  match (if exchange.CacheEnabled then List.lookup cacheKey cache else none) with
  | some payload => (.ok payload, cache, false)
  | none =>
    match env.transport cacheKey with
    | .error msg => (.err (.external msg), cache, true)
    | .ok body =>
      match env.unmarshal body with
      | .error msg =>
        (.err (.wrapPre ("unmarshal " ++ goQuote body ++ ": ") (.external msg)), cache, true)
      | .ok result =>
        match List.lookup "success" result with
        | some (GoVal.bool b) =>
          if b then
            if exchange.CacheEnabled then (.ok result, cacheSet cache cacheKey result, true)
            else (.ok result, cache, true)
          else
            (.err (.wrapPre (goQuote body ++ ": ") .invalidAPIResponse), cache, true)
        | _ => (.panics, cache, true)

/-! ## Specification-side definitions

`encodeSpec` and `encodePairs` restate, in the specification's vocabulary,
which first validation error the encoder reports and which parameter pairs it
accumulates; the refinement theorem for the encoder compares
`processQueryValues` against them. -/

/-- Error component of a validation result. -/
def exErr : Except GoErr Unit → Option GoErr
  | .error e => some e
  | .ok _ => none

/-- Modelled from the amended specification of the encoder: the first
validation error, checking in order base, from, to (currency codes when
non-empty), then the date (when non-empty), then the first time-frame
endpoint and the time frame itself (when the frame is non-zero).  The amount
and the symbols are never validated. -/
def encodeSpec (q : query) : Option GoErr :=
  match (if q.Base != "" then ValidateCode q.Base else .ok ()) with
  | .error e => some e
  | .ok _ =>
  match (if q.From != "" then ValidateCode q.From else .ok ()) with
  | .error e => some e
  | .ok _ =>
  match (if q.To != "" then ValidateCode q.To else .ok ()) with
  | .error e => some e
  | .ok _ =>
  match (if q.Date != "" then ValidateDate q.Date else .ok ()) with
  | .error e => some e
  | .ok _ =>
  match (if q.TimeFrame != ("", "") then ValidateDate q.TimeFrame.1 else .ok ()) with
  | .error e => some e
  | .ok _ =>
  match (if q.TimeFrame != ("", "") then ValidateTimeFrame q.TimeFrame else .ok ()) with
  | .error e => some e
  | .ok _ => none

/-- A parameter pair present only under a condition. -/
def optPair (cond : Bool) (k v : String) : List (String × String) :=
  if cond then [(k, v)] else []

/-- Modelled from the specification of the encoder: the parameter pairs of a
successfully encoded query, in insertion order — the incoming pairs, the
unconditional `access_key`, then one optional pair per field in source
order. -/
def encodePairs (accessKey : String) (Q0 : List (String × String)) (q : query) :
    List (String × String) :=
  Q0 ++ [("access_key", accessKey)] ++
  optPair (q.Base != "") "base" q.Base ++
  optPair (q.From != "") "from" q.From ++
  optPair (q.To != "") "to" q.To ++
  optPair (decide (1 < q.Amount)) "amount" (toString q.Amount) ++
  optPair (q.Symbols != []) "symbols" (joinWith "," q.Symbols) ++
  optPair (q.Date != "") "date" q.Date ++
  (if q.TimeFrame != ("", "") then
    [("start_date", q.TimeFrame.1), ("end_date", q.TimeFrame.2)] else [])

/-! ## Helper lemmas -/

theorem charsLe_cons_iff (a b : Char) (as bs : List Char) :
    charsLe (a :: as) (b :: bs) = true ↔
      a.toNat < b.toNat ∨ (a.toNat = b.toNat ∧ charsLe as bs = true) := by
  constructor
  · intro h
    by_cases h1 : a.toNat < b.toNat
    · exact Or.inl h1
    · by_cases h2 : b.toNat < a.toNat
      · simp only [charsLe, if_neg h1, if_pos h2] at h
        exact absurd h (by simp)
      · simp only [charsLe, if_neg h1, if_neg h2] at h
        exact Or.inr ⟨by omega, h⟩
  · intro h
    rcases h with h1 | ⟨h1, h2⟩
    · simp only [charsLe, if_pos h1]
    · simp only [charsLe, if_neg (by omega : ¬ a.toNat < b.toNat),
        if_neg (by omega : ¬ b.toNat < a.toNat)]
      exact h2

theorem charsLe_total : ∀ (a b : List Char), charsLe a b = true ∨ charsLe b a = true
  | [], _ => Or.inl rfl
  | _ :: _, [] => Or.inr rfl
  | a :: as, b :: bs => by
    rcases Nat.lt_trichotomy a.toNat b.toNat with h | h | h
    · exact Or.inl ((charsLe_cons_iff a b as bs).mpr (Or.inl h))
    · rcases charsLe_total as bs with h' | h'
      · exact Or.inl ((charsLe_cons_iff a b as bs).mpr (Or.inr ⟨h, h'⟩))
      · exact Or.inr ((charsLe_cons_iff b a bs as).mpr (Or.inr ⟨h.symm, h'⟩))
    · exact Or.inr ((charsLe_cons_iff b a bs as).mpr (Or.inl h))

theorem charsLe_trans : ∀ (a b c : List Char),
    charsLe a b = true → charsLe b c = true → charsLe a c = true
  | [], _, _ => fun _ _ => rfl
  | _ :: _, [], _ => by intro h _; simp [charsLe] at h
  | _ :: _, _ :: _, [] => by intro _ h; simp [charsLe] at h
  | a :: as, b :: bs, c :: cs => by
    intro hab hbc
    rcases (charsLe_cons_iff a b as bs).mp hab with h1 | ⟨h1, h1'⟩ <;>
      rcases (charsLe_cons_iff b c bs cs).mp hbc with h2 | ⟨h2, h2'⟩
    · exact (charsLe_cons_iff a c as cs).mpr (Or.inl (by omega))
    · exact (charsLe_cons_iff a c as cs).mpr (Or.inl (by omega))
    · exact (charsLe_cons_iff a c as cs).mpr (Or.inl (by omega))
    · exact (charsLe_cons_iff a c as cs).mpr
        (Or.inr ⟨by omega, charsLe_trans as bs cs h1' h2'⟩)

theorem goStrLe_total (a b : String) : goStrLe a b = true ∨ goStrLe b a = true :=
  charsLe_total a.data b.data

theorem goStrLe_trans (a b c : String) :
    goStrLe a b = true → goStrLe b c = true → goStrLe a c = true :=
  charsLe_trans a.data b.data c.data

theorem mem_insPair (p q : String × String) (l : List (String × String)) :
    q ∈ insPair p l ↔ q = p ∨ q ∈ l := by
  induction l with
  | nil => simp [insPair]
  | cons x rest ih =>
    simp only [insPair]
    split
    · simp only [List.mem_cons, ih]
      tauto
    · simp only [List.mem_cons]

theorem sorted_insPair (p : String × String) (l : List (String × String))
    (h : l.Pairwise (fun a b => goStrLe a.1 b.1 = true)) :
    (insPair p l).Pairwise (fun a b => goStrLe a.1 b.1 = true) := by
  induction l with
  | nil => simp [insPair]
  | cons x rest ih =>
    rcases List.pairwise_cons.mp h with ⟨hx, hrest⟩
    simp only [insPair]
    split
    · rename_i h1
      refine List.pairwise_cons.mpr ⟨?_, ih hrest⟩
      intro q hq
      rcases (mem_insPair p q rest).mp hq with rfl | hq'
      · exact h1
      · exact hx q hq'
    · rename_i h1
      refine List.pairwise_cons.mpr ⟨?_, h⟩
      intro q hq
      rcases List.mem_cons.mp hq with rfl | hq'
      · rcases goStrLe_total p.1 q.1 with hok | hbad
        · exact hok
        · exact absurd hbad h1
      · rcases goStrLe_total p.1 x.1 with hok | hbad
        · exact goStrLe_trans p.1 x.1 q.1 hok (hx q hq')
        · exact absurd hbad h1

theorem sorted_sortPairs (l : List (String × String)) :
    (sortPairs l).Pairwise (fun a b => goStrLe a.1 b.1 = true) := by
  induction l with
  | nil => simp [sortPairs]
  | cons x rest ih => exact sorted_insPair x (sortPairs rest) ih

theorem mem_sortPairs (q : String × String) (l : List (String × String)) :
    q ∈ sortPairs l ↔ q ∈ l := by
  induction l with
  | nil => simp [sortPairs]
  | cons x rest ih =>
    simp only [sortPairs, mem_insPair, List.mem_cons, ih]

/-- Central description of the encoder: `processQueryValues` fails with the
first validation error described by `encodeSpec` and otherwise returns
exactly the pairs of `encodePairs`. -/
theorem processQueryValues_eq (ak : String) (Q0 : List (String × String)) (q : query) :
    processQueryValues ak Q0 q =
      match encodeSpec q with
      | some e => .error e
      | none => .ok (encodePairs ak Q0 q) := by
  unfold processQueryValues encodeSpec encodePairs optPair
  cases (if q.Base != "" then ValidateCode q.Base else Except.ok ()) with
  | error e => rfl
  | ok _ =>
  cases (if q.From != "" then ValidateCode q.From else Except.ok ()) with
  | error e => rfl
  | ok _ =>
  cases (if q.To != "" then ValidateCode q.To else Except.ok ()) with
  | error e => rfl
  | ok _ =>
  cases (if q.Date != "" then ValidateDate q.Date else Except.ok ()) with
  | error e => rfl
  | ok _ =>
  cases (if q.TimeFrame != ("", "") then ValidateDate q.TimeFrame.1 else Except.ok ()) with
  | error e => rfl
  | ok _ =>
  cases (if q.TimeFrame != ("", "") then ValidateTimeFrame q.TimeFrame else Except.ok ()) with
  | error e => rfl
  | ok _ => simp [decide_eq_true_eq]

/-! ## Substring helper lemmas -/

theorem charsPre_append (p s : List Char) : charsPre p (p ++ s) = true := by
  induction p with
  | nil => rfl
  | cons c rest ih => simp [charsPre, ih]

theorem charsSub_of_pre (pat l : List Char) (h : charsPre pat l = true) :
    charsSub pat l = true := by
  cases l with
  | nil => simpa [charsSub] using h
  | cons c rest => simp [charsSub, h]

/-! ## Claim theorems -/

/-- C8: `ValidateCode` succeeds exactly on strings of (byte) length 3 and
fails with `ErrInvalidCode` on every other string; no character restriction
is applied. -/
theorem C8_validateCode (code : String) :
    ValidateCode code = if goLen code = 3 then .ok () else .error .invalidCode := by
  unfold ValidateCode
  by_cases h : goLen code = 3 <;> simp [h]

/-- C9: `SetBase` either succeeds and replaces exactly the `Base` field
(length-3 argument), or fails with `ErrInvalidCode` and leaves the whole
struct unchanged; no other field is touched in either case. -/
theorem C9_setBase (exchange : Exchange) (base : String) :
    SetBase exchange base =
      if goLen base = 3 then (none, { exchange with Base := base })
      else (some .invalidCode, exchange) := by
  unfold SetBase ValidateCode
  by_cases h : goLen base = 3 <;> simp [h]

/-- C2: concrete evaluation of `ValidateDate` around the floor.  The claim
says `"1999-01-03"` fails with `InvalidDate`; the code accepts it (the floor
constant is `1999-01-03` compared with strict `Before`, contradicting the
code's own error text "Oldest possible date is 1999-01-04").  Dates up to
`1999-01-02` do fail with `InvalidDate`, and non-matching strings fail with
a wrapping of `ErrInvalidDateFormat`. -/
theorem C2_validateDate_eval :
    ValidateDate "1999-01-03" = .ok () ∧
    ValidateDate "1999-01-04" = .ok () ∧
    ValidateDate "1999-01-02" = .error .invalidDate ∧
    exceptErrIs (ValidateDate "99-1-4") .invalidDateFormat = true :=
  ⟨rfl, rfl, rfl, rfl⟩

/-- C4: for parseable endpoints, `ValidateTimeFrame` fails with
`InvalidTimeFrame` when `to` is before `from`, fails with
`TimeframeExceeded` when the elapsed hours (`24 * days`, exact in float)
exceed `8759.992992006` (the integer comparison below is the exact rational
form of that bound), and succeeds otherwise; a parse failure of either
endpoint propagates as that format error, the `from` endpoint first. -/
theorem C4_validateTimeFrame (f t : String) :
    (∀ df dt, parseDate f = .ok df → parseDate t = .ok dt →
      ValidateTimeFrame (f, t) =
        (if dayNum dt < dayNum df then .error .invalidTimeFrame
         else if 8759992992006 < 24 * 1000000000 * (dayNum dt - dayNum df) then
           .error .timeframeExceeded
         else .ok ())) ∧
    (∀ e, parseDate f = .error e → ValidateTimeFrame (f, t) = .error e) ∧
    (∀ df e, parseDate f = .ok df → parseDate t = .error e →
      ValidateTimeFrame (f, t) = .error e) := by
  refine ⟨?_, ?_, ?_⟩
  · intro df dt hf ht
    simp only [ValidateTimeFrame, hf, ht]
  · intro e hf
    simp only [ValidateTimeFrame, hf]
  · intro df e hf ht
    simp only [ValidateTimeFrame, hf, ht]

/-- Witness for C4: a reversed range, a 364-day range, a 365-day range and a
malformed `from` endpoint. -/
theorem C4_witness :
    ValidateTimeFrame ("2020-01-01", "2019-12-31") = .error .invalidTimeFrame ∧
    ValidateTimeFrame ("2020-01-01", "2020-12-30") = .ok () ∧
    ValidateTimeFrame ("2020-01-01", "2020-12-31") = .error .timeframeExceeded ∧
    ValidateTimeFrame ("99-1-4", "2020-01-01") = .error (parseDateErr "99-1-4") := by
  refine ⟨?_, ?_, ?_, ?_⟩
  · exact ((C4_validateTimeFrame "2020-01-01" "2019-12-31").1
      ⟨2020, 1, 1⟩ ⟨2019, 12, 31⟩ rfl rfl).trans (by rfl)
  · exact ((C4_validateTimeFrame "2020-01-01" "2020-12-30").1
      ⟨2020, 1, 1⟩ ⟨2020, 12, 30⟩ rfl rfl).trans (by rfl)
  · exact ((C4_validateTimeFrame "2020-01-01" "2020-12-31").1
      ⟨2020, 1, 1⟩ ⟨2020, 12, 31⟩ rfl rfl).trans (by rfl)
  · exact (C4_validateTimeFrame "99-1-4" "2020-01-01").2.1 (parseDateErr "99-1-4") rfl

/-- C3, counterexample: the encoder never validates the symbols list.  A
query whose only set field is a malformed symbols list encodes successfully
(the claim says it fails with `InvalidCode`), even though `ValidateSymbols`
itself would reject the list; and with a malformed date added, the reported
error is the date format error, not `InvalidCode`. -/
theorem C3_counterexample :
    processQueryValues "k" [] ({ Symbols := ["ABCD"] } : query)
      = .ok [("access_key", "k"), ("symbols", "ABCD")] ∧
    ValidateSymbols ["ABCD"] = .error .invalidCode ∧
    exceptErrIs (processQueryValues "k" [] ({ Symbols := ["ABCD"], Date := "bad" } : query))
      .invalidCode = false ∧
    exceptErrIs (processQueryValues "k" [] ({ Symbols := ["ABCD"], Date := "bad" } : query))
      .invalidDateFormat = true :=
  ⟨rfl, rfl, rfl, rfl⟩

/-- C3, amended: the encoder fails with the first validation error in the
field order base, from, to, date, time frame (`encodeSpec`); amount and
symbols are passed through without validation, and on success the parameter
pairs are exactly `encodePairs` (incoming pairs, `access_key`, then one
optional pair per field in source order). -/
theorem C3_amended (ak : String) (Q0 : List (String × String)) (q : query) :
    processQueryValues ak Q0 q =
      match encodeSpec q with
      | some e => .error e
      | none => .ok (encodePairs ak Q0 q) :=
  processQueryValues_eq ak Q0 q

/-- C6: on a successfully encoded fresh request, an `amount` parameter is
present exactly when the amount exceeds 1 (an amount of 1 or less, including
the zero value, is omitted), and when present it carries the decimal
rendering of the amount, unvalidated. -/
theorem C6_amount (ak : String) (q : query) (Qf : List (String × String))
    (h : processQueryValues ak [] q = .ok Qf) :
    (q.Amount ≤ 1 → "amount" ∉ Qf.map Prod.fst) ∧
    (1 < q.Amount → ("amount", toString q.Amount) ∈ Qf) := by
  have hm := processQueryValues_eq ak [] q
  rw [h] at hm
  cases hs : encodeSpec q with
  | some e => rw [hs] at hm; exact absurd hm (by simp)
  | none =>
    rw [hs] at hm
    injection hm with hQ
    subst hQ
    constructor
    · intro hle hmem
      simp only [encodePairs, optPair, List.map_append, List.mem_append] at hmem
      rcases hmem with ((((((h1 | h2) | h3) | h4) | h5) | h6) | h7) | h8
      · simp at h1
      · revert h2; split <;> simp
      · revert h3; split <;> simp
      · revert h4; split <;> simp
      · revert h5
        split
        · rename_i hdec
          rw [decide_eq_true_eq] at hdec
          omega
        · simp
      · revert h6; split <;> simp
      · revert h7; split <;> simp
      · revert h8; split <;> simp
    · intro hgt
      simp [encodePairs, optPair, hgt]

/-- Witness for C6: amount 1 yields no `amount` pair; amount 2 yields the
pair `("amount", "2")`. -/
theorem C6_witness :
    "amount" ∉ ([("access_key", "k")] : List (String × String)).map Prod.fst ∧
    ("amount", toString ((2 : Int))) ∈ [("access_key", "k"), ("amount", "2")] := by
  constructor
  · exact (C6_amount "k" ({ Amount := 1 } : query) [("access_key", "k")] rfl).1 (by decide)
  · exact (C6_amount "k" ({ Amount := 2 } : query)
      [("access_key", "k"), ("amount", "2")] rfl).2 (by decide)

/-- C5: encoding is deterministic (the embedding is a pure function of the
query and the shared access key, so encoding twice yields the same request
byte for byte); the encoded raw query is the canonical rendering of the
accumulated pairs, whose keys `valuesEncode` emits in bytewise-sorted
(alphabetical) order; and the symbols list is serialized as the single
comma-joined parameter `symbols`, preserving the input order of the list. -/
theorem C5_encoding (ak : String) (req : Request) (q : query)
    (Qf : List (String × String))
    (h : processQueryValues ak (parseQuery req.rawQuery) q = .ok Qf) :
    processQuery ak req q = processQuery ak req q ∧
    (processQuery ak req q).2.rawQuery = valuesEncode Qf ∧
    (sortPairs Qf).Pairwise (fun a b => goStrLe a.1 b.1 = true) ∧
    (q.Symbols ≠ [] → ("symbols", joinWith "," q.Symbols) ∈ Qf) := by
  refine ⟨rfl, ?_, sorted_sortPairs Qf, ?_⟩
  · unfold processQuery
    rw [h]
  · intro hs
    have hm := processQueryValues_eq ak (parseQuery req.rawQuery) q
    rw [h] at hm
    cases hsp : encodeSpec q with
    | some e => rw [hsp] at hm; exact absurd hm (by simp)
    | none =>
      rw [hsp] at hm
      injection hm with hQ
      subst hQ
      simp [encodePairs, optPair, hs]

/-- Witness for C5 at the query with Symbols = ["USD", "EUR"]. -/
theorem C5_witness :
    processQuery "k" (newRequest "https://api.exchangerate.host/latest")
        ({ Symbols := ["USD", "EUR"] } : query) =
      processQuery "k" (newRequest "https://api.exchangerate.host/latest")
        ({ Symbols := ["USD", "EUR"] } : query) ∧
    (processQuery "k" (newRequest "https://api.exchangerate.host/latest")
        ({ Symbols := ["USD", "EUR"] } : query)).2.rawQuery =
      valuesEncode [("access_key", "k"), ("symbols", "USD,EUR")] ∧
    (sortPairs [("access_key", "k"), ("symbols", "USD,EUR")]).Pairwise
      (fun a b => goStrLe a.1 b.1 = true) ∧
    ("symbols", joinWith "," ["USD", "EUR"]) ∈ [("access_key", "k"), ("symbols", "USD,EUR")] := by
  have h := C5_encoding "k" (newRequest "https://api.exchangerate.host/latest")
    ({ Symbols := ["USD", "EUR"] } : query) [("access_key", "k"), ("symbols", "USD,EUR")] rfl
  exact ⟨h.1, h.2.1, h.2.2.1, h.2.2.2 (by decide)⟩

/-- C10: when `processQuery` reports a validation error, the request is
returned exactly as it was — in particular `RawQuery` keeps its prior value
and not even the unconditional `access_key` pair is attached. -/
theorem C10_frame (ak : String) (req : Request) (q : query) (e : GoErr)
    (h : (processQuery ak req q).1 = .error e) :
    (processQuery ak req q).2 = req := by
  unfold processQuery at *
  cases hp : processQueryValues ak (parseQuery req.rawQuery) q with
  | error e' => rfl
  | ok Q => rw [hp] at h; exact absurd h (by simp)

/-- Witness for C10 at a query with the invalid base code "EURO". -/
theorem C10_witness :
    (processQuery "k" (newRequest "https://api.exchangerate.host/latest")
        ({ Base := "EURO" } : query)).2 =
      newRequest "https://api.exchangerate.host/latest" :=
  C10_frame "k" (newRequest "https://api.exchangerate.host/latest")
    ({ Base := "EURO" } : query) .invalidCode rfl

/-- Transport and decoder answering every URL with a fixed successful body;
used to evaluate the fetch pipeline at concrete inputs. -/
def envOkTrue : ClientEnv where
  accessKey := "KEY"
  transport := fun _ => .ok "\x7b\"success\": true\x7d"
  unmarshal := fun _ => .ok [("success", GoVal.bool true)]

/-- A client instance with caching disabled. -/
def xNoCache : Exchange := { Base := "EUR", CacheEnabled := false, isInitialized := true }

/-- C1: evaluation of the fetch pipeline at a query whose base code "EURO"
fails validation.  `processQuery` does report `ErrInvalidCode`, but `get`
discards that error (line 180 of the source calls `processQuery(req, q)`
without using its result), reaches the HTTP transport anyway (third
component `true`) and returns the transport's payload instead of the
validation error. -/
theorem C1_ignored_validation_error :
    (processQuery "KEY" (newRequest "https://api.exchangerate.host/latest")
        ({ Base := "EURO" } : query)).1 = .error .invalidCode ∧
    Exchange.get envOkTrue xNoCache [] "https://api.exchangerate.host/latest"
        ({ Base := "EURO" } : query) =
      (.ok [("success", GoVal.bool true)], [], true) :=
  ⟨rfl, rfl⟩

/-- The raw body reported by the upstream service on failure, used by the C7
evaluations. -/
def bodyFalse : String := "\x7b\"success\": false, \"error\": \x7b\x7d\x7d"

/-- Transport and decoder answering every URL with `bodyFalse`. -/
def envFalse : ClientEnv where
  accessKey := "KEY"
  transport := fun _ => .ok bodyFalse
  unmarshal := fun _ => .ok [("success", GoVal.bool false), ("error", GoVal.obj [])]

/-- C7, counterexample: on a decoded body whose `success` field is `false`,
the fetch does fail with a wrapping of `ErrInvalidAPIResponse`, but the
error message does NOT contain the literal response body text: the `%q` verb
escapes the quotes inside the body, so only the Go-quoted form appears. -/
theorem C7_counterexample :
    Exchange.get envFalse xNoCache [] "https://api.exchangerate.host/latest" ({} : query) =
      (.err (.wrapPre (goQuote bodyFalse ++ ": ") .invalidAPIResponse), [], true) ∧
    hasSubstr (errMsg (.wrapPre (goQuote bodyFalse ++ ": ") .invalidAPIResponse))
      bodyFalse = false :=
  ⟨rfl, rfl⟩

/-- C7, amended: whenever the cache probe misses, the transport delivers a
body, the body decodes, and the decoded `success` field is the boolean
`false`, the fetch fails with an error wrapping `ErrInvalidAPIResponse`
whose message contains the Go-quoted (`%q`) form of the raw body — the
literal body surrounded by quotes, with quotes and backslashes escaped — and
the cache is left unchanged: the payload is neither cached nor returned. -/
theorem C7_amended (env : ClientEnv) (x : Exchange) (cache : Cache) (url : String)
    (q : query) (body : String) (result : GoMap)
    (hprobe : (if x.CacheEnabled then
      List.lookup (getCacheKey env.accessKey url q) cache else none) = none)
    (htr : env.transport (getCacheKey env.accessKey url q) = .ok body)
    (hum : env.unmarshal body = .ok result)
    (hsucc : List.lookup "success" result = some (GoVal.bool false)) :
    Exchange.get env x cache url q =
      (.err (.wrapPre (goQuote body ++ ": ") .invalidAPIResponse), cache, true) ∧
    errIs (.wrapPre (goQuote body ++ ": ") .invalidAPIResponse) .invalidAPIResponse = true ∧
    hasSubstr (errMsg (.wrapPre (goQuote body ++ ": ") .invalidAPIResponse))
      (goQuote body) = true := by
  refine ⟨?_, ?_, ?_⟩
  · unfold Exchange.get
    simp only [hprobe, htr, hum, hsucc]
    rfl
  · simp [errIs]
  · have hmsg : errMsg (.wrapPre (goQuote body ++ ": ") .invalidAPIResponse) =
      (goQuote body ++ ": ") ++ "Unknown API error" := rfl
    rw [hmsg]
    unfold hasSubstr
    apply charsSub_of_pre
    have : ((goQuote body ++ ": ") ++ "Unknown API error").data =
        (goQuote body).data ++ ((": ").data ++ "Unknown API error".data) := by
      simp [String.data_append, List.append_assoc]
    rw [this]
    exact charsPre_append (goQuote body).data _

/-- Witness for C7 at the concrete failing body `bodyFalse`. -/
theorem C7_witness :
    Exchange.get envFalse xNoCache [] "https://api.exchangerate.host/latest" ({} : query) =
      (.err (.wrapPre (goQuote bodyFalse ++ ": ") .invalidAPIResponse), [], true) ∧
    errIs (.wrapPre (goQuote bodyFalse ++ ": ") .invalidAPIResponse) .invalidAPIResponse = true ∧
    hasSubstr (errMsg (.wrapPre (goQuote bodyFalse ++ ": ") .invalidAPIResponse))
      (goQuote bodyFalse) = true :=
  C7_amended envFalse xNoCache [] "https://api.exchangerate.host/latest" ({} : query)
    bodyFalse [("success", GoVal.bool false), ("error", GoVal.obj [])] rfl rfl rfl rfl
